import Mathlib

/-!
Shallow embedding of the hotels-icons synchronisation script (`src/main.py`)
and verification of its specification.

The script fetches a remote icon catalog, matches entries against local SVG
files, normalises tag strings, builds one row per matched icon and bulk-inserts
the rows into a store in chunks of 100.  External collaborators (HTTP fetch,
filesystem existence, store inserts, UUID generation) are modelled as explicit
parameters: a predicate for the filesystem, a generator function for ids and a
response oracle for the store.
-/

namespace HotelsIcons

/-- Configuration constant `ICON_STYLE_SUFFIX` from the script. -/
def ICON_STYLE_SUFFIX : String := "stroke-rounded"

/-- Configuration constant `OUTPUT_DIR` from the script. -/
def OUTPUT_DIR : String := "icons"

/-- Model of `os.path.join` for a directory with no trailing separator. -/
def os_path_join (a b : String) : String := a ++ "/" ++ b

/-!
## Tag normalisation (`parse_tags`, src/main.py lines 58-78)
-/

/-- Python `str.strip()`: drop whitespace from both ends.  Implemented
structurally over the character list so that it evaluates inside the
kernel. -/
def pyStrip (s : String) : String :=
  String.mk
    (((s.data.dropWhile Char.isWhitespace).reverse.dropWhile
        Char.isWhitespace).reverse)

/-- Python `str.split(sep)` on a character list: splitting an empty string
yields one empty group, and every separator occurrence starts a new group. -/
def splitChars (sep : Char) : List Char → List (List Char)
  | [] => [[]]
  | c :: cs =>
    match splitChars sep cs with
    | [] => [[c]]
    | g :: gs => if c = sep then [] :: g :: gs else (c :: g) :: gs

/-- Python `str.split(sep)` for strings. -/
def pySplit (sep : Char) (s : String) : List String :=
  (splitChars sep s.data).map String.mk

/-- The candidate tag list before deduplication: Python
`[t.strip() for t in raw_tags.split(",") if t.strip()]` guarded by
`if raw_tags:` (an empty string is falsy). -/
def splitTags (raw_tags : String) : List String :=
  if raw_tags ≠ "" then
    ((pySplit ',' raw_tags).map pyStrip).filter (fun t => t ≠ "")
  else []

/-- Python truthiness of an optional string: `None` and `""` are falsy. -/
def strTruthy : Option String → Bool
  | some s => s ≠ ""
  | Option.none => false

/-- The `for t in tags: if t not in seen: ...` deduplication loop of
`parse_tags`, with the `seen` set modelled as a list. -/
def dedupLoop : List String → List String → List String
  | _, [] => []
  | seen, t :: ts =>
    if t ∈ seen then dedupLoop seen ts
    else t :: dedupLoop (t :: seen) ts

/-- Source function `parse_tags(raw_tags, category)`: split and strip the raw
tags, append `category.strip()` when `category` is truthy, then deduplicate
keeping first occurrences. -/
def parse_tags (raw_tags : String) (category : Option String) : List String :=
  let tags := splitTags raw_tags
  let tags :=
    match category with
    | some c => if c ≠ "" then tags ++ [pyStrip c] else tags
    | Option.none => tags
  dedupLoop [] tags

/-!
## Data model: catalog entries and inserted rows
-/

/-- A remote catalog entry as consumed by `main`: `icon.get("name")`,
`icon.get("tags", "")` and `icon.get("category")`.  Optional fields model
absent dictionary keys. -/
structure Icon where
  name : Option String
  tags : Option String
  category : Option String
deriving DecidableEq, Repr

/-- One row prepared for insertion (the dict built in `main`,
src/main.py lines 131-138).  `embedding` is an optional vector, always
`none` at creation. -/
structure Row where
  id : String
  icon_name : String
  tags : List String
  keyword : String
  file : String
  embedding : Option (List Int)
deriving DecidableEq, Repr

instance : Inhabited Row :=
  ⟨{ id := "", icon_name := "", tags := [], keyword := "", file := "",
     embedding := Option.none }⟩

/-- Diagnostics printed by the per-entry loop in `main`. -/
inductive EntryDiag where
  | fileMissing (icon_name : String) (path : String)
deriving DecidableEq, Repr

/-- The derived local file name for an icon name:
`f"{name}-{ICON_STYLE_SUFFIX}.svg"`. -/
def derivedFileName (name : String) : String :=
  name ++ "-" ++ ICON_STYLE_SUFFIX ++ ".svg"

/-- The per-entry loop of `main` (src/main.py lines 113-140).  `fs` models
`os.path.exists`, `gen` models `uuid.uuid4()` as the k-th generated id, and
`k` counts ids already consumed.  Returns the accumulated rows and the
diagnostics printed. -/
def processIcons (fs : String → Bool) (gen : Nat → String) :
    Nat → List Icon → List Row × List EntryDiag
  | _, [] => ([], [])
  | k, icon :: rest =>
    if strTruthy icon.name then
      let name := icon.name.getD ""
      let file_name := derivedFileName name
      let local_path := os_path_join OUTPUT_DIR file_name
      if fs local_path then
        let row : Row :=
          { id := gen k
            icon_name := name
            tags := parse_tags (icon.tags.getD "") icon.category
            keyword := ""
            file := file_name
            embedding := Option.none }
        let r := processIcons fs gen (k + 1) rest
        (row :: r.1, r.2)
      else
        let r := processIcons fs gen k rest
        (r.1, EntryDiag.fileMissing name local_path :: r.2)
    else
      processIcons fs gen k rest

/-!
## Batch publisher (`insert_icons_to_supabase`, src/main.py lines 81-102)
-/

/-- A dynamically-typed Python value, enough to model the `error` attribute
of a store response and its truthiness. -/
inductive PyVal where
  | pynone
  | pybool (b : Bool)
  | pystr (s : String)
deriving DecidableEq, Repr

/-- Python truthiness of a `PyVal`. -/
def PyVal.truthy : PyVal → Bool
  | .pynone => false
  | .pybool b => b
  | .pystr s => s ≠ ""

/-- A store response, as inspected by `getattr(res, "error", None)`:
`error = Option.none` models a response object with no `error` attribute at
all, `error = some v` a response whose `error` attribute holds `v`. -/
structure SupabaseResponse where
  error : Option PyVal
deriving DecidableEq, Repr

/-- Model of the `getattr` lookup of the `error` attribute with default `None`. -/
def respError (r : SupabaseResponse) : PyVal :=
  r.error.getD PyVal.pynone

/-- The chunk size hard-coded in `insert_icons_to_supabase`. -/
def chunk_size : Nat := 100

/-- Successive slices `rows[i : i + chunk_size]` for `i` in
the Python range over multiples of `chunk_size`: take the first `chunk_size`
rows, recurse on the rest. -/
def chunksOf : List Row → List (List Row)
  | [] => []
  | x :: xs =>
    ((x :: xs).take chunk_size) :: chunksOf ((x :: xs).drop chunk_size)
termination_by l => l.length
decreasing_by
  simp only [List.length_drop, List.length_cons, chunk_size]
  omega

/-- What the publisher did for one chunk: the chunk it submitted to the
store, and whether the error diagnostic (rather than the success message)
was printed for it. -/
structure ChunkReport where
  chunk : List Row
  errored : Bool
deriving DecidableEq, Repr

/-- The chunk loop of `insert_icons_to_supabase`: submit each chunk in order
(`respond j` is the store's response to the j-th insert call) and report an
error exactly when `getattr(res, "error", None)` is truthy. -/
def reportChunks (respond : Nat → SupabaseResponse) :
    Nat → List (List Row) → List ChunkReport
  | _, [] => []
  | j, c :: cs =>
    { chunk := c, errored := (respError (respond j)).truthy } ::
      reportChunks respond (j + 1) cs

/-- Observable trace of `insert_icons_to_supabase`: whether the
"No rows to insert" message was printed, plus one report per insert call. -/
structure PublishTrace where
  noRowsMsg : Bool
  reports : List ChunkReport
deriving DecidableEq, Repr

/-- Source function `insert_icons_to_supabase(supabase, rows)`: return early
on an empty list, otherwise insert chunk by chunk. -/
def insert_icons_to_supabase (respond : Nat → SupabaseResponse)
    (rows : List Row) : PublishTrace :=
  if rows.isEmpty then { noRowsMsg := true, reports := [] }
  else { noRowsMsg := false, reports := reportChunks respond 0 (chunksOf rows) }

/-!
## Spec-side definition for the deduplication refinement claim
-/

/-- Deduplication as the spec words it: keep each element's first occurrence,
in order, removing later exact (case-sensitive) duplicates.  This is the
spec-side definition, to be compared with the source-side `dedupLoop`. -/
def firstOccurrenceDedup : List String → List String
  | [] => []
  | t :: ts => t :: firstOccurrenceDedup (ts.filter (fun s => s ≠ t))
termination_by l => l.length
decreasing_by
  have := List.length_filter_le (fun s => decide (s ≠ t)) ts
  simp only [List.length_cons]
  omega

/-- The combined candidate tag list of `parse_tags` before deduplication:
the split-and-stripped raw tags followed by the stripped category when the
category is truthy. -/
def tagCandidates (raw_tags : String) (category : Option String) :
    List String :=
  match category with
  | some c =>
    if c ≠ "" then splitTags raw_tags ++ [pyStrip c] else splitTags raw_tags
  | Option.none => splitTags raw_tags

/-!
## Concrete fixtures used to instantiate the theorems
-/

/-- A deterministic id generator: the index-th id is a string of `j + 1`
letters `a`, so distinct indices give distinct non-empty ids. -/
def genRepl (j : Nat) : String := String.mk (List.replicate (j + 1) 'a')

/-- A store oracle that always succeeds (no `error` attribute at all). -/
def respondOk : Nat → SupabaseResponse := fun _ => { error := Option.none }

/-- A store oracle whose second insert call (index 1) reports an error and
whose other calls succeed. -/
def respondSecondFails : Nat → SupabaseResponse := fun j =>
  if j = 1 then { error := some (PyVal.pystr "boom") } else { error := Option.none }

/-- Fixture of 250 identical default rows, exercising the 100/100/50 chunking. -/
def rows250 : List Row := List.replicate 250 default

/-- Fixture of 3 identical default rows, fitting into a single chunk. -/
def rows3 : List Row := List.replicate 3 default

/-- The row built for `iconPresent` by a run starting at id index 0 with the
`genRepl` generator. -/
def rowPresent : Row :=
  { id := genRepl 0, icon_name := "present", tags := ["x", "y", "z"],
    keyword := "", file := "present-stroke-rounded.svg",
    embedding := Option.none }

/-- A catalog entry whose derived file exists in the fixture filesystem. -/
def iconPresent : Icon :=
  { name := some "present", tags := some "x, y", category := some "z" }

/-- A catalog entry whose derived file is absent from the fixture
filesystem. -/
def iconAbsent : Icon :=
  { name := some "absent", tags := Option.none, category := Option.none }

/-- A catalog entry with no name at all. -/
def iconNameless : Icon :=
  { name := Option.none, tags := some "x", category := some "y" }

/-- A fixture filesystem containing exactly the file derived for
`iconPresent`. -/
def fsPresentOnly : String → Bool := fun p =>
  p = os_path_join OUTPUT_DIR (derivedFileName "present")

/-!
## Lemmas about the deduplication loop
-/

theorem dedupLoop_mem (ts : List String) :
    ∀ seen a, a ∈ dedupLoop seen ts ↔ a ∈ ts ∧ a ∉ seen := by
  induction ts with
  | nil => intro seen a; simp [dedupLoop]
  | cons t ts ih =>
    intro seen a
    by_cases h : t ∈ seen
    · rw [show dedupLoop seen (t :: ts) = dedupLoop seen ts by
        simp only [dedupLoop, if_pos h], ih]
      constructor
      · rintro ⟨ha, hs⟩
        exact ⟨List.mem_cons_of_mem t ha, hs⟩
      · rintro ⟨ha, hs⟩
        rcases List.mem_cons.mp ha with rfl | ha
        · exact absurd h hs
        · exact ⟨ha, hs⟩
    · rw [show dedupLoop seen (t :: ts) = t :: dedupLoop (t :: seen) ts by
        simp only [dedupLoop, if_neg h]]
      constructor
      · intro hm
        rcases List.mem_cons.mp hm with rfl | hm
        · exact ⟨List.mem_cons_self a ts, h⟩
        · obtain ⟨ha, hs⟩ := (ih (t :: seen) a).mp hm
          exact ⟨List.mem_cons_of_mem t ha,
            fun hc => hs (List.mem_cons_of_mem t hc)⟩
      · rintro ⟨ha, hs⟩
        by_cases hat : a = t
        · exact hat ▸ List.mem_cons_self t (dedupLoop (t :: seen) ts)
        · rcases List.mem_cons.mp ha with rfl | ha
          · exact absurd rfl hat
          · exact List.mem_cons_of_mem t ((ih (t :: seen) a).mpr
              ⟨ha, fun hc => (List.mem_cons.mp hc).elim hat hs⟩)

theorem dedupLoop_nodup (ts : List String) :
    ∀ seen, (dedupLoop seen ts).Nodup := by
  induction ts with
  | nil => intro seen; simp [dedupLoop]
  | cons t ts ih =>
    intro seen
    by_cases h : t ∈ seen
    · simpa only [dedupLoop, if_pos h] using ih seen
    · simp only [dedupLoop, if_neg h, List.nodup_cons]
      refine ⟨fun hc => ?_, ih (t :: seen)⟩
      exact ((dedupLoop_mem ts (t :: seen) t).mp hc).2 (List.mem_cons_self t seen)

theorem parse_tags_eq_dedupLoop (raw : String) (cat : Option String) :
    parse_tags raw cat = dedupLoop [] (tagCandidates raw cat) := by
  cases cat with
  | none => rfl
  | some c => by_cases h : c = "" <;> simp [parse_tags, tagCandidates, h]

theorem empty_not_mem_splitTags (raw : String) : "" ∉ splitTags raw := by
  unfold splitTags
  by_cases h : raw = ""
  · simp [h]
  · simp only [if_pos h, List.mem_filter]
    rintro ⟨-, hc⟩
    simp at hc

theorem dedupLoop_eq_firstOccurrenceDedup (ts : List String) :
    ∀ seen, dedupLoop seen ts =
      firstOccurrenceDedup (ts.filter (fun s => decide (s ∉ seen))) := by
  induction ts with
  | nil => intro seen; simp [dedupLoop, firstOccurrenceDedup]
  | cons t ts ih =>
    intro seen
    by_cases h : t ∈ seen
    · rw [show dedupLoop seen (t :: ts) = dedupLoop seen ts by
          simp only [dedupLoop, if_pos h],
        List.filter_cons_of_neg (by simpa using h), ih]
    · rw [show dedupLoop seen (t :: ts) = t :: dedupLoop (t :: seen) ts by
          simp only [dedupLoop, if_neg h],
        List.filter_cons_of_pos (by simpa using h), firstOccurrenceDedup,
        List.filter_filter, ih (t :: seen)]
      refine congrArg (List.cons t)
        (congrArg firstOccurrenceDedup (List.filter_congr ?_))
      intro a _
      by_cases h1 : a = t <;> by_cases h2 : a ∈ seen <;>
        simp [h1, h2, List.mem_cons]

theorem filter_not_mem_nil (l : List String) :
    l.filter (fun s => decide (s ∉ ([] : List String))) = l :=
  List.filter_eq_self.mpr (by simp)

/-!
## Lemmas about the chunking loop
-/

theorem chunksOf_cons_eq (l : List Row) (h : l ≠ []) :
    chunksOf l = l.take chunk_size :: chunksOf (l.drop chunk_size) := by
  match l with
  | [] => exact absurd rfl h
  | x :: xs => rw [chunksOf]

theorem chunksOf_flatten (l : List Row) : (chunksOf l).flatten = l := by
  induction l using chunksOf.induct with
  | case1 => simp [chunksOf]
  | case2 x xs ih =>
    rw [chunksOf, List.flatten_cons, ih, List.take_append_drop]

theorem chunksOf_mem_bounds (l : List Row) :
    ∀ c ∈ chunksOf l, c.length ≤ chunk_size ∧ c ≠ [] := by
  induction l using chunksOf.induct with
  | case1 => simp [chunksOf]
  | case2 x xs ih =>
    rw [chunksOf]
    intro c hc
    rcases List.mem_cons.mp hc with rfl | hc
    · exact ⟨by simp, by simp [chunk_size]⟩
    · exact ih c hc

theorem chunksOf_getD_length (l : List Row) :
    ∀ i, i + 1 < (chunksOf l).length →
      ((chunksOf l).getD i []).length = chunk_size := by
  induction l using chunksOf.induct with
  | case1 => simp [chunksOf]
  | case2 x xs ih =>
    rw [chunksOf]
    intro i hi
    match i with
    | 0 =>
      by_cases hlen : chunk_size ≤ (x :: xs).length
      · simpa using Nat.min_eq_left hlen
      · exfalso
        have hdrop : List.drop chunk_size (x :: xs) = [] :=
          List.drop_eq_nil_of_le (by omega)
        rw [hdrop] at hi
        simp [chunksOf] at hi
    | i + 1 =>
      simpa using ih i (by simpa using hi)

theorem chunksOf_sizes_250 (l : List Row) (h : l.length = 250) :
    (chunksOf l).map List.length = [100, 100, 50] := by
  have h1 : l ≠ [] := by
    intro hc; rw [hc] at h; simp at h
  have h2 : List.drop chunk_size l ≠ [] := by
    intro hc
    have := congrArg List.length hc
    simp [h, chunk_size] at this
  have h3 : List.drop chunk_size (List.drop chunk_size l) ≠ [] := by
    intro hc
    have := congrArg List.length hc
    simp [h, chunk_size] at this
  have h4 : List.drop chunk_size
      (List.drop chunk_size (List.drop chunk_size l)) = [] := by
    apply List.drop_eq_nil_of_le
    simp [h, chunk_size]
  rw [chunksOf_cons_eq l h1, chunksOf_cons_eq _ h2, chunksOf_cons_eq _ h3,
    h4]
  simp [chunksOf, h, chunk_size]

/-!
## Lemmas about the insert-loop reports
-/

instance : Inhabited ChunkReport := ⟨{ chunk := [], errored := false }⟩

theorem reportChunks_map_chunk (respond : Nat → SupabaseResponse) :
    ∀ j cs, (reportChunks respond j cs).map ChunkReport.chunk = cs := by
  intro j cs
  induction cs generalizing j with
  | nil => simp [reportChunks]
  | cons c cs ih => simp [reportChunks, ih]

theorem reportChunks_length (respond : Nat → SupabaseResponse) :
    ∀ j cs, (reportChunks respond j cs).length = cs.length := by
  intro j cs
  induction cs generalizing j with
  | nil => simp [reportChunks]
  | cons c cs ih => simp [reportChunks, ih]

theorem reportChunks_getD_errored (respond : Nat → SupabaseResponse) :
    ∀ cs j i, i < cs.length →
      ((reportChunks respond j cs).getD i default).errored =
        (respError (respond (j + i))).truthy := by
  intro cs
  induction cs with
  | nil => intro j i hi; simp at hi
  | cons c cs ih =>
    intro j i hi
    match i with
    | 0 => simp [reportChunks]
    | i + 1 =>
      have := ih (j + 1) i (by simpa using hi)
      simpa [reportChunks, Nat.add_assoc, Nat.add_comm 1 i] using this

/-!
## Lemmas about the per-entry loop
-/

theorem processIcons_cons_built (fs : String → Bool) (gen : Nat → String)
    (k : Nat) (icon : Icon) (rest : List Icon)
    (h1 : strTruthy icon.name = true)
    (h2 : fs (os_path_join OUTPUT_DIR (derivedFileName (icon.name.getD ""))) =
      true) :
    processIcons fs gen k (icon :: rest) =
      (({ id := gen k, icon_name := icon.name.getD "",
          tags := parse_tags (icon.tags.getD "") icon.category,
          keyword := "", file := derivedFileName (icon.name.getD ""),
          embedding := Option.none } : Row) ::
          (processIcons fs gen (k + 1) rest).1,
        (processIcons fs gen (k + 1) rest).2) := by
  simp only [processIcons, if_pos h1, if_pos h2]

theorem processIcons_cons_fileMissing (fs : String → Bool) (gen : Nat → String)
    (k : Nat) (icon : Icon) (rest : List Icon)
    (h1 : strTruthy icon.name = true)
    (h2 : fs (os_path_join OUTPUT_DIR (derivedFileName (icon.name.getD ""))) =
      false) :
    processIcons fs gen k (icon :: rest) =
      ((processIcons fs gen k rest).1,
        EntryDiag.fileMissing (icon.name.getD "")
            (os_path_join OUTPUT_DIR (derivedFileName (icon.name.getD ""))) ::
          (processIcons fs gen k rest).2) := by
  simp [processIcons, h1, h2]

theorem processIcons_cons_skip (fs : String → Bool) (gen : Nat → String)
    (k : Nat) (icon : Icon) (rest : List Icon)
    (h1 : strTruthy icon.name = false) :
    processIcons fs gen k (icon :: rest) = processIcons fs gen k rest := by
  simp [processIcons, h1]

theorem processIcons_rows_fields (fs : String → Bool) (gen : Nat → String) :
    ∀ icons k, ∀ r ∈ (processIcons fs gen k icons).1,
      r.keyword = "" ∧ r.embedding = Option.none ∧
        r.file = derivedFileName r.icon_name := by
  intro icons
  induction icons with
  | nil => intro k r hr; simp [processIcons] at hr
  | cons icon rest ih =>
    intro k r hr
    by_cases h1 : strTruthy icon.name
    · by_cases h2 : fs (os_path_join OUTPUT_DIR (derivedFileName (icon.name.getD "")))
      · rw [processIcons_cons_built fs gen k icon rest h1 h2] at hr
        rcases List.mem_cons.mp hr with rfl | hr
        · exact ⟨rfl, rfl, rfl⟩
        · exact ih (k + 1) r hr
      · rw [processIcons_cons_fileMissing fs gen k icon rest h1
          (Bool.of_not_eq_true h2)] at hr
        exact ih k r hr
    · rw [processIcons_cons_skip fs gen k icon rest
        (Bool.of_not_eq_true h1)] at hr
      exact ih k r hr

theorem processIcons_map_id (fs : String → Bool) (gen : Nat → String) :
    ∀ icons k, ((processIcons fs gen k icons).1).map Row.id =
      (List.range' k ((processIcons fs gen k icons).1).length).map gen := by
  intro icons
  induction icons with
  | nil => intro k; simp [processIcons]
  | cons icon rest ih =>
    intro k
    by_cases h1 : strTruthy icon.name
    · by_cases h2 : fs (os_path_join OUTPUT_DIR (derivedFileName (icon.name.getD "")))
      · rw [processIcons_cons_built fs gen k icon rest h1 h2]
        simp only [List.map_cons, List.length_cons, List.range'_succ]
        exact congrArg (List.cons (gen k)) (ih (k + 1))
      · rw [processIcons_cons_fileMissing fs gen k icon rest h1
          (Bool.of_not_eq_true h2)]
        exact ih k
    · rw [processIcons_cons_skip fs gen k icon rest (Bool.of_not_eq_true h1)]
      exact ih k

/-!
## Claim theorems
-/

/-- C1, counterexample: the claim that `parse_tags` never returns an
empty-string element fails — a whitespace-only category is truthy before
stripping, so `parse_tags "" (some " ")` contains the empty string. -/
theorem parse_tags_empty_string_cex : "" ∈ parse_tags "" (some " ") := by
  decide

/-- C1, amended: for every raw tag string and optional category, the result
of `parse_tags` has no duplicates; and provided the category, whenever
present and non-empty, is still non-empty after trimming, the result also
has no empty-string element. -/
theorem parse_tags_nodup_no_empty (raw : String) (cat : Option String)
    (hcat : ∀ c, cat = some c → c ≠ "" → pyStrip c ≠ "") :
    (parse_tags raw cat).Nodup ∧ "" ∉ parse_tags raw cat := by
  rw [parse_tags_eq_dedupLoop]
  refine ⟨dedupLoop_nodup _ _, fun hc => ?_⟩
  have hmem := ((dedupLoop_mem (tagCandidates raw cat) [] "").mp hc).1
  cases cat with
  | none => exact empty_not_mem_splitTags raw hmem
  | some c =>
    by_cases h : c = ""
    · rw [tagCandidates, if_neg (by simp [h])] at hmem
      exact empty_not_mem_splitTags raw hmem
    · rw [tagCandidates, if_pos h] at hmem
      rcases List.mem_append.mp hmem with hm | hm
      · exact empty_not_mem_splitTags raw hm
      · exact hcat c rfl h (List.mem_singleton.mp hm).symm

/-- C1, witness: a concrete instantiation of the amended theorem. -/
theorem parse_tags_nodup_no_empty_witness :
    (parse_tags "a, b, a" (some "navigation")).Nodup ∧
      "" ∉ parse_tags "a, b, a" (some "navigation") :=
  parse_tags_nodup_no_empty "a, b, a" (some "navigation")
    (by intro c hc _; cases hc; decide)

/-- C7: `parse_tags` deduplicates by exact case-sensitive string equality,
keeping the first occurrence of each tag in the combined
raw-tags-then-category candidate order (it coincides with the spec-side
`firstOccurrenceDedup` of the candidates); in particular
`parse_tags "b, a, b" (some "a")` is `["b", "a"]`. -/
theorem parse_tags_first_occurrence_order :
    (∀ raw cat, parse_tags raw cat =
      firstOccurrenceDedup (tagCandidates raw cat)) ∧
    parse_tags "b, a, b" (some "a") = ["b", "a"] := by
  constructor
  · intro raw cat
    rw [parse_tags_eq_dedupLoop, dedupLoop_eq_firstOccurrenceDedup,
      filter_not_mem_nil]
  · decide

/-- C8: on an empty record list the publisher prints the nothing-to-publish
message and makes zero insert calls. -/
theorem publish_empty_no_calls (respond : Nat → SupabaseResponse) :
    (insert_icons_to_supabase respond []).noRowsMsg = true ∧
      (insert_icons_to_supabase respond []).reports.length = 0 :=
  ⟨rfl, rfl⟩

/-!
## Further helper lemmas
-/

theorem reportChunks_map_errored (respond : Nat → SupabaseResponse) :
    ∀ cs j, (reportChunks respond j cs).map ChunkReport.errored =
      (List.range' j cs.length).map
        (fun i => (respError (respond i)).truthy) := by
  intro cs
  induction cs with
  | nil => intro j; simp [reportChunks]
  | cons c cs ih =>
    intro j
    simp only [reportChunks, List.map_cons, List.length_cons,
      List.range'_succ, ih (j + 1)]

theorem genRepl_injective : Function.Injective genRepl := by
  intro a b h
  have h2 := congrArg (fun s => s.data.length) h
  simp only [genRepl, List.length_replicate] at h2
  omega

theorem genRepl_ne_empty (j : Nat) : genRepl j ≠ "" := by
  intro h
  have h2 := congrArg (fun s => s.data.length) h
  simp [genRepl] at h2

theorem isEmpty_publish_map_chunk (respond : Nat → SupabaseResponse)
    (rows : List Row) :
    (insert_icons_to_supabase respond rows).reports.map ChunkReport.chunk =
      chunksOf rows := by
  unfold insert_icons_to_supabase
  by_cases h : rows.isEmpty
  · rw [if_pos h, List.isEmpty_iff.mp h]
    simp [chunksOf]
  · rw [if_neg h]
    exact reportChunks_map_chunk respond 0 (chunksOf rows)

theorem rows250_length : rows250.length = 250 := by
  rw [rows250, List.length_replicate]

theorem rows250_ne_nil : rows250 ≠ [] := by
  intro h
  have h2 := congrArg List.length h
  rw [rows250_length] at h2
  simp at h2

theorem rows250_not_isEmpty : ¬rows250.isEmpty := by
  simpa [List.isEmpty_iff] using rows250_ne_nil

theorem rows3_length : rows3.length = 3 := by
  rw [rows3, List.length_replicate]

theorem rows3_ne_nil : rows3 ≠ [] := by
  intro h
  have h2 := congrArg List.length h
  rw [rows3_length] at h2
  simp at h2

theorem chunksOf_rows3 : chunksOf rows3 = [rows3] := by
  rw [chunksOf_cons_eq rows3 rows3_ne_nil,
    List.drop_eq_nil_of_le (by rw [rows3_length]; simp [chunk_size]),
    List.take_of_length_le (by rw [rows3_length]; simp [chunk_size])]
  simp [chunksOf]

/-- C2: for every non-empty record list, the chunks submitted by the
publisher concatenate back to the original records in order (nothing
duplicated, dropped or reordered), every chunk is non-empty with at most 100
records, every chunk but the last has exactly 100, and 250 records produce
exactly the chunk sizes 100, 100, 50. -/
theorem publisher_chunking (respond : Nat → SupabaseResponse)
    (rows : List Row) (_h : rows ≠ []) :
    (((insert_icons_to_supabase respond rows).reports.map
        ChunkReport.chunk).flatten = rows) ∧
    (∀ c ∈ (insert_icons_to_supabase respond rows).reports.map
        ChunkReport.chunk, c.length ≤ 100 ∧ c ≠ []) ∧
    (∀ i, i + 1 < ((insert_icons_to_supabase respond rows).reports.map
        ChunkReport.chunk).length →
      (((insert_icons_to_supabase respond rows).reports.map
          ChunkReport.chunk).getD i []).length = 100) ∧
    (rows.length = 250 →
      ((insert_icons_to_supabase respond rows).reports.map
          ChunkReport.chunk).map List.length = [100, 100, 50]) := by
  rw [isEmpty_publish_map_chunk respond rows]
  exact ⟨chunksOf_flatten rows, chunksOf_mem_bounds rows,
    chunksOf_getD_length rows, chunksOf_sizes_250 rows⟩

/-- C2, witness: 250 concrete rows are submitted as chunks of sizes
100, 100, 50. -/
theorem publisher_chunking_witness :
    ((insert_icons_to_supabase respondOk rows250).reports.map
        ChunkReport.chunk).map List.length = [100, 100, 50] :=
  (publisher_chunking respondOk rows250 rows250_ne_nil).2.2.2 rows250_length

/-- C3: the chunks the publisher submits never depend on the store's
responses (an error on one chunk does not stop later submissions), and in the
concrete 250-row run whose second insert call reports an error, all three
chunks (sizes 100, 100, 50) are submitted while only the second is reported
as errored. -/
theorem publisher_error_isolation :
    (∀ (respond : Nat → SupabaseResponse) (rows : List Row),
      (insert_icons_to_supabase respond rows).reports.map ChunkReport.chunk =
        chunksOf rows) ∧
    (((insert_icons_to_supabase respondSecondFails rows250).reports.map
        ChunkReport.chunk).map List.length = [100, 100, 50]) ∧
    ((insert_icons_to_supabase respondSecondFails rows250).reports.map
        ChunkReport.errored = [false, true, false]) := by
  refine ⟨isEmpty_publish_map_chunk, ?_, ?_⟩
  · rw [isEmpty_publish_map_chunk]
    exact chunksOf_sizes_250 rows250 rows250_length
  · have hlen : (chunksOf rows250).length = 3 := by
      have := congrArg List.length (chunksOf_sizes_250 rows250 rows250_length)
      simpa using this
    have hne : ¬rows250.isEmpty := rows250_not_isEmpty
    unfold insert_icons_to_supabase
    rw [if_neg hne, reportChunks_map_errored respondSecondFails _ 0, hlen]
    decide

/-- C4, counterexample: an entry with a missing name is excluded from the
output but, contrary to the claim, no diagnostic at all is emitted for it
(the diagnostics list of the run is empty). -/
theorem missing_name_silent_cex :
    (processIcons fsPresentOnly genRepl 0 [iconNameless, iconPresent]).2 =
        [] ∧
      (processIcons fsPresentOnly genRepl 0
          [iconNameless, iconPresent]).1.map Row.icon_name = ["present"] := by
  constructor <;> decide

/-- C4, amended: an entry whose name is missing (absent or empty) is
silently skipped — it is excluded from the output, no diagnostic is emitted
for it, and the remaining entries are processed exactly as if the entry were
not there. -/
theorem missing_name_skipped (fs : String → Bool) (gen : Nat → String)
    (pre post : List Icon) (e : Icon)
    (h : strTruthy e.name = false) :
    ∀ k, processIcons fs gen k (pre ++ e :: post) =
      processIcons fs gen k (pre ++ post) := by
  induction pre with
  | nil =>
    intro k
    simpa using processIcons_cons_skip fs gen k e post h
  | cons a pre ih =>
    intro k
    rw [List.cons_append, List.cons_append]
    by_cases h1 : strTruthy a.name
    · by_cases h2 : fs (os_path_join OUTPUT_DIR
        (derivedFileName (a.name.getD "")))
      · rw [processIcons_cons_built fs gen k a _ h1 h2,
          processIcons_cons_built fs gen k a _ h1 h2, ih (k + 1)]
      · rw [processIcons_cons_fileMissing fs gen k a _ h1
            (Bool.of_not_eq_true h2),
          processIcons_cons_fileMissing fs gen k a _ h1
            (Bool.of_not_eq_true h2), ih k]
    · rw [processIcons_cons_skip fs gen k a _ (Bool.of_not_eq_true h1),
        processIcons_cons_skip fs gen k a _ (Bool.of_not_eq_true h1), ih k]

/-- C4, witness: a concrete nameless entry in front of a processable entry
changes nothing about the run. -/
theorem missing_name_skipped_witness :
    processIcons fsPresentOnly genRepl 0
        ([] ++ iconNameless :: [iconPresent]) =
      processIcons fsPresentOnly genRepl 0 ([] ++ [iconPresent]) :=
  missing_name_skipped fsPresentOnly genRepl [] [iconPresent] iconNameless
    (by decide) 0

/-- C5: every row the pipeline builds has an empty `keyword`, a null
`embedding`, and a `file` equal to the icon name followed by a dash, the
style suffix and the `.svg` extension. -/
theorem record_fields_fixed (fs : String → Bool) (gen : Nat → String)
    (k : Nat) (icons : List Icon) (r : Row)
    (hr : r ∈ (processIcons fs gen k icons).1) :
    r.keyword = "" ∧ r.embedding = Option.none ∧
      r.file = r.icon_name ++ "-" ++ ICON_STYLE_SUFFIX ++ ".svg" :=
  processIcons_rows_fields fs gen icons k r hr

/-- C5, witness: the row built for the concrete present entry has the three
fixed fields. -/
theorem record_fields_fixed_witness :
    rowPresent.keyword = "" ∧ rowPresent.embedding = Option.none ∧
      rowPresent.file = rowPresent.icon_name ++ "-" ++ ICON_STYLE_SUFFIX ++
        ".svg" :=
  record_fields_fixed fsPresentOnly genRepl 0 [iconPresent] rowPresent
    (by decide)

/-- C6: an entry whose name is present but whose derived file does not exist
contributes exactly one missing-file diagnostic naming the icon and the
path, contributes no row, and leaves the processing of the remaining entries
unchanged; concretely, one present and one absent entry yield exactly one
row. -/
theorem missing_file_skip (fs : String → Bool) (gen : Nat → String)
    (k : Nat) (e : Icon) (rest : List Icon) (n : String)
    (hn : e.name = some n) (hne : n ≠ "")
    (habs : fs (os_path_join OUTPUT_DIR (derivedFileName n)) = false) :
    (processIcons fs gen k (e :: rest) =
      ((processIcons fs gen k rest).1,
        EntryDiag.fileMissing n (os_path_join OUTPUT_DIR
            (derivedFileName n)) ::
          (processIcons fs gen k rest).2)) ∧
    (processIcons fsPresentOnly genRepl 0
        [iconPresent, iconAbsent]).1.length = 1 := by
  constructor
  · have hd : e.name.getD "" = n := by rw [hn]; rfl
    have h1 : strTruthy e.name = true := by
      rw [hn]; simpa [strTruthy] using hne
    rw [processIcons_cons_fileMissing fs gen k e rest h1 (by rw [hd]; exact habs),
      hd]
  · decide

/-- C6, witness: the concrete absent entry produces the diagnostic and no
row. -/
theorem missing_file_skip_witness :
    (processIcons fsPresentOnly genRepl 0 [iconAbsent] =
      ((processIcons fsPresentOnly genRepl 0 []).1,
        EntryDiag.fileMissing "absent" (os_path_join OUTPUT_DIR
            (derivedFileName "absent")) ::
          (processIcons fsPresentOnly genRepl 0 []).2)) ∧
    (processIcons fsPresentOnly genRepl 0
        [iconPresent, iconAbsent]).1.length = 1 :=
  missing_file_skip fsPresentOnly genRepl 0 iconAbsent [] "absent" rfl
    (by decide) (by decide)

/-- C9: if the id generator yields distinct values for distinct calls and
never the empty string, then within one run every built row has a non-empty
id and no two rows share an id. -/
theorem record_ids_unique (fs : String → Bool) (gen : Nat → String)
    (k : Nat) (icons : List Icon)
    (hinj : Function.Injective gen) (hne : ∀ j, gen j ≠ "") :
    ((processIcons fs gen k icons).1.map Row.id).Nodup ∧
      ∀ r ∈ (processIcons fs gen k icons).1, r.id ≠ "" := by
  constructor
  · rw [processIcons_map_id]
    exact List.Nodup.map hinj (List.nodup_range' k _)
  · intro r hr
    have hmem : r.id ∈ (processIcons fs gen k icons).1.map Row.id :=
      List.mem_map_of_mem Row.id hr
    rw [processIcons_map_id] at hmem
    obtain ⟨j, -, hj⟩ := List.mem_map.mp hmem
    exact hj ▸ hne j

/-- C9, witness: two copies of the same present entry still get distinct
non-empty ids from the deterministic generator. -/
theorem record_ids_unique_witness :
    ((processIcons fsPresentOnly genRepl 0
        [iconPresent, iconPresent]).1.map Row.id).Nodup ∧
      ∀ r ∈ (processIcons fsPresentOnly genRepl 0
        [iconPresent, iconPresent]).1, r.id ≠ "" :=
  record_ids_unique fsPresentOnly genRepl 0 [iconPresent, iconPresent]
    genRepl_injective genRepl_ne_empty

/-- C10: the error diagnostic for the i-th insert call is printed exactly
when the truthiness of the response's `error` attribute (defaulting to
`None` when absent) holds: a response with no `error` attribute, or with a
falsy one, is reported as a success, and only a truthy `error` value is
reported as an error. -/
theorem chunk_error_detection (respond : Nat → SupabaseResponse)
    (rows : List Row) (i : Nat)
    (hi : i < (insert_icons_to_supabase respond rows).reports.length) :
    (((insert_icons_to_supabase respond rows).reports.getD i
        default).errored = (respError (respond i)).truthy) ∧
    ((respond i).error = Option.none →
      ((insert_icons_to_supabase respond rows).reports.getD i
        default).errored = false) ∧
    (∀ v, (respond i).error = some v →
      (((insert_icons_to_supabase respond rows).reports.getD i
          default).errored = true ↔ v.truthy = true)) := by
  have key : ((insert_icons_to_supabase respond rows).reports.getD i
      default).errored = (respError (respond i)).truthy := by
    unfold insert_icons_to_supabase at hi ⊢
    by_cases h : rows.isEmpty
    · rw [if_pos h] at hi
      simp at hi
    · rw [if_neg h] at hi ⊢
      have := reportChunks_getD_errored respond (chunksOf rows) 0 i
        (by simpa [reportChunks_length] using hi)
      simpa using this
  refine ⟨key, fun h0 => ?_, fun v hv => ?_⟩
  · rw [key]
    simp [respError, h0, PyVal.truthy]
  · rw [key]
    simp [respError, hv]

/-- C10, witness: with one chunk and a response carrying no `error`
attribute, the insert is reported as a success. -/
theorem chunk_error_detection_witness :
    (((insert_icons_to_supabase respondOk rows3).reports.getD 0
        default).errored = (respError (respondOk 0)).truthy) ∧
    ((respondOk 0).error = Option.none →
      ((insert_icons_to_supabase respondOk rows3).reports.getD 0
        default).errored = false) ∧
    (∀ v, (respondOk 0).error = some v →
      (((insert_icons_to_supabase respondOk rows3).reports.getD 0
          default).errored = true ↔ v.truthy = true)) :=
  chunk_error_detection respondOk rows3 0 (by
    unfold insert_icons_to_supabase
    rw [if_neg (by decide), reportChunks_length, chunksOf_rows3]
    decide)

end HotelsIcons
